import Mathlib

/-!
Shallow embedding of `src/pnpm-registry-summary.js` (pnpm-tools).

The program is a pipeline of pure computations over file contents:
`findNpmrcFiles` locates the candidate `.npmrc` config files, `parseNpmrc`
merges their registry declarations, `extractScopes` and
`extractPackagesByRegistry` scan a parsed lockfile document.

File-system access (`fs.existsSync` / `fs.readFileSync`) is modelled by a
finite map from path to content.  The third-party YAML parser (`js-yaml`,
not part of this repository) is modelled as an explicit parameter
`yamlLoad : String → Except String Yaml`, so every theorem about the
lockfile functions holds for an arbitrary parser behaviour.

JavaScript string and regex details that the source relies on are embedded
character-for-character: `String.prototype.trim`, `split`, the regexes
`^(@[^:]+):registry\s*=\s*(.+)$`, `^registry\s*=\s*(.+)$` and
`^(@[^/]+)\//`, JavaScript object-property update semantics (insertion
order, last write wins), and `Array.prototype.reverse` (which mutates its
receiver in place).
-/

namespace PnpmRegistrySummary

/-- Whitespace characters recognized by JavaScript `String.prototype.trim`
and by the regex class `\s` (ECMAScript WhiteSpace plus LineTerminator). -/
def isJsWhite (c : Char) : Bool :=
  c = ' ' || c = '\t' || c = '\n' || c = '\u000B' || c = '\u000C' || c = '\r' ||
  c = '\u00A0' || c = '\u1680' || ('\u2000' ≤ c && c ≤ '\u200A') ||
  c = '\u2028' || c = '\u2029' || c = '\u202F' || c = '\u205F' || c = '\u3000' || c = '\uFEFF'

/-- Characters matched by the regex `.` (any character except a LineTerminator). -/
def isDotChar (c : Char) : Bool :=
  !(c = '\n' || c = '\r' || c = '\u2028' || c = '\u2029')

/-- Drop whitespace from both ends of a character list, as
`String.prototype.trim` does. -/
def trimL (cs : List Char) : List Char :=
  ((cs.dropWhile isJsWhite).reverse.dropWhile isJsWhite).reverse

/-- Drop trailing whitespace only (the effect of `.trim()` on a capture that
cannot start with whitespace). -/
def rtrimL (cs : List Char) : List Char :=
  (cs.reverse.dropWhile isJsWhite).reverse

/-- Helper for `splitLines`: accumulates the current line in reverse. -/
def splitLinesAux : List Char → List Char → List String
  | [], cur => [String.mk cur.reverse]
  | c :: cs, cur =>
    if c = '\n' then String.mk cur.reverse :: splitLinesAux cs []
    else splitLinesAux cs (c :: cur)

/-- Model of JavaScript `content.split('\n')` (line 42 of the source). -/
def splitLines (s : String) : List String :=
  splitLinesAux s.toList []

/-- Model of `line.trim().split('#')[0]` (line 44 of the source): trim the
line, then keep everything strictly before the first `#`. -/
def cleanLine (line : String) : List Char :=
  (trimL line.toList).takeWhile (fun c => c ≠ '#')

/-- Model of the common tail `\s*=\s*(.+)$` of both npmrc line regexes,
applied after the leading literal has been consumed, composed with the
`.trim()` the source applies to the captured group.  Returns the trimmed
capture on a match, `none` on no match.  The greedy/backtracking behaviour
of the real regex engine is resolved deterministically: after the `=`, the
capture group `(.+)` must cover every character after the whitespace run
(all of them `.`-matchable), or — when only whitespace follows the `=` —
backtracking lets `(.+)` match a whitespace tail whose characters are
`.`-matchable, which trims to the empty string. -/
def matchValuePart (l : List Char) : Option String :=
  match l.dropWhile isJsWhite with
  | '=' :: rest =>
    match rest.dropWhile isJsWhite with
    | [] =>
      match (rest.takeWhile isJsWhite).getLast? with
      | some c => if isDotChar c then some ("") else none
      | none => none
    | r0h :: r0t =>
      if (r0h :: r0t).all isDotChar then some (String.mk (rtrimL (r0h :: r0t))) else none
  | _ => none

/-- Model of `cleanLine.match(/^(@[^:]+):registry\s*=\s*(.+)$/)` (line 48):
on success returns the captured scope (including the leading `@`) and the
trimmed registry value.  `[^:]+` is translated as the maximal run of
non-`:` characters; the regex engine cannot backtrack past the first `:`
because the class excludes it. -/
def scopedMatchL : List Char → Option (String × String)
  | '@' :: rest =>
    match rest.takeWhile (fun c => c ≠ ':') with
    | [] => none
    | s0 :: s1 =>
      match rest.dropWhile (fun c => c ≠ ':') with
      | ':' :: tail =>
        if tail.take 8 = ("registry").toList then
          (matchValuePart (tail.drop 8)).map (fun v => (String.mk ('@' :: s0 :: s1), v))
        else none
      | _ => none
  | _ => none

/-- Model of `cleanLine.match(/^registry\s*=\s*(.+)$/)` (line 56), returning
the trimmed captured value. -/
def defaultMatchL (l : List Char) : Option String :=
  if l.take 8 = ("registry").toList then matchValuePart (l.drop 8) else none

/-- Per-line classification of a config line, following the body of the
inner loop of `parseNpmrc` (lines 43-60): empty cleaned lines are skipped,
a scoped-registry match wins over a default-registry match (the source
does `continue` after a scoped match; the two patterns are mutually
exclusive anyway), anything else is ignored. -/
inductive LineKind where
  | scopeDecl (scope value : String)
  | defaultDecl (value : String)
  | skip
deriving DecidableEq, Repr

/-- Classify one raw line of an npmrc file. -/
def classifyLine (line : String) : LineKind :=
  match cleanLine line with
  | [] => LineKind.skip
  | c :: cs =>
    match scopedMatchL (c :: cs) with
    | some (k, v) => LineKind.scopeDecl k v
    | none =>
      match defaultMatchL (c :: cs) with
      | some v => LineKind.defaultDecl v
      | none => LineKind.skip

/-- JavaScript object property write `registryMap[scope] = value`: if the
key is present its value is replaced in place, otherwise the pair is
appended (insertion order is preserved).  All keys written by the source
start with `@`, so prototype properties are never involved. -/
def updateMap (m : List (String × String)) (k v : String) : List (String × String) :=
  if m.any (fun p => p.1 == k) then
    m.map (fun p => if p.1 == k then (p.1, v) else p)
  else m ++ [(k, v)]

/-- JavaScript object property read `registryMap[scope]`: `none` models
`undefined`. -/
def lookupMap (m : List (String × String)) (k : String) : Option String :=
  (m.find? (fun p => p.1 == k)).map (fun p => p.2)

/-- The accumulator of `parseNpmrc`: the scoped registry map and the
default registry string. -/
structure NpmrcState where
  registryMap : List (String × String)
  defaultRegistry : String
deriving DecidableEq, Repr

/-- Initial accumulator of `parseNpmrc` (lines 36-37 of the source). -/
def initState : NpmrcState :=
  { registryMap := [], defaultRegistry := ("https://registry.npmjs.org/") }

/-- Effect of one config line on the accumulator (lines 43-60). -/
def applyLine (st : NpmrcState) (line : String) : NpmrcState :=
  match classifyLine line with
  | LineKind.scopeDecl k v => { st with registryMap := updateMap st.registryMap k v }
  | LineKind.defaultDecl v => { st with defaultRegistry := v }
  | LineKind.skip => st

/-- Effect of the content of one config file on the accumulator (lines 42-60). -/
def applyFile (st : NpmrcState) (content : String) : NpmrcState :=
  (splitLines content).foldl applyLine st

/-- The file system, modelled as a finite map from path to content. -/
structure FileSys where
  files : List (String × String)
deriving DecidableEq, Repr

/-- Model of `fs.readFileSync(p, utf8)` for a path that exists. -/
def FileSys.readFile? (fs : FileSys) (p : String) : Option String :=
  (fs.files.find? (fun e => e.1 == p)).map (fun e => e.2)

/-- Model of `fs.existsSync(p)`. -/
def FileSys.existsSync (fs : FileSys) (p : String) : Bool :=
  (fs.readFile? p).isSome

/-- The loop of `parseNpmrc` (lines 39-61) over an already-ordered list of
paths: missing files are skipped, existing files are applied in order. -/
def parseNpmrcCore (fs : FileSys) (order : List String) : NpmrcState :=
  order.foldl
    (fun st p =>
      match fs.readFile? p with
      | some content => applyFile st content
      | none => st)
    initState

/-- Model of `parseNpmrc(filePaths)` (lines 35-64).  The source iterates
over `filePaths.reverse()`; `Array.prototype.reverse` reverses the array of the caller in place and returns the same array, so the call both establishes the
processing order (home first, project last) and leaves the argument array
reversed.  The first component is the state of the `filePaths`
array of the caller after the call; the second is the returned record. -/
def parseNpmrc (fs : FileSys) (filePaths : List String) : List String × NpmrcState :=
  (filePaths.reverse, parseNpmrcCore fs filePaths.reverse)

/-- Model of Node `path.join(a, b)` for a non-empty directory `a` and a
plain file name `b` (the only shape the source uses: joining a directory
with `.npmrc`). -/
def pathJoin (a b : String) : String :=
  match a.toList.reverse with
  | [] => b
  | '/' :: _ => String.mk (a.toList ++ b.toList)
  | _ :: _ => String.mk (a.toList ++ '/' :: b.toList)

/-- Model of Node `path.dirname` for POSIX paths, following the reference
algorithm: trailing slashes are ignored, the result is the prefix strictly
before the last remaining slash, `/` for root-anchored single components,
`.` when there is no slash. -/
def dirname (p : String) : String :=
  match p.toList with
  | [] => (".")
  | c0 :: cs0 =>
    let t := (((c0 :: cs0).reverse.dropWhile (fun c => c = '/')).dropWhile (fun c => c ≠ '/'))
    if t.length ≤ 1 then (if c0 = '/' then ("/") else ("."))
    else if c0 = '/' && t.length = 2 then ("//")
    else String.mk ((c0 :: cs0).take (t.length - 1))

/-- Model of `findNpmrcFiles(lockfilePath)` (lines 17-29): the user-level
candidate `homedir/.npmrc` is placed in the list first, then — when a
lockfile path is given — the project-level candidate is `unshift`ed to the
FRONT, and finally the candidates that do not exist are filtered out. -/
def findNpmrcFiles (fs : FileSys) (homedir : String) (lockfilePath : Option String) :
    List String :=
  let base : List String := [pathJoin homedir (".npmrc")]
  let locations : List String :=
    match lockfilePath with
    | some lp => pathJoin (dirname lp) (".npmrc") :: base
    | none => base
  locations.filter (fun p => fs.existsSync p)

/-- Structured documents as produced by the YAML parser: mappings, lists,
strings and null.  Mappings produced by the parser have unique keys (a
later duplicate key overwrites the earlier one during parsing). -/
inductive Yaml where
  | mapping (entries : List (String × Yaml))
  | listv (items : List Yaml)
  | strv (s : String)
  | nullv

/-- Property lookup on a parsed mapping. -/
def lookupYaml (entries : List (String × Yaml)) (k : String) : Option Yaml :=
  (entries.find? (fun e => e.1 == k)).map (fun e => e.2)

/-- Whether a document node is a mapping. -/
def Yaml.isMapping : Yaml → Bool
  | Yaml.mapping _ => true
  | _ => false

/-- Decimal index keys: `Object.keys` applied to a JavaScript array of
length `n` (or a string of length `n`) yields the index strings
`"0" … "n-1"`. -/
def idxKeys (n : Nat) : List String :=
  (List.range n).map (fun i => Nat.repr i)

/-- Model of `Object.keys(lockData?.packages || {})` (lines 78 / 103 and
80 / 105): optional chaining yields `undefined` for a non-mapping document
or a missing `packages` key, `null` and other falsy values are replaced by
`{}`, while a truthy non-mapping `packages` value (a list or a string)
reaches `Object.keys` unchanged and contributes its index keys.  Note that
`Object.keys` sorts integer-like keys first; since the source only ever
uses keys that match the scope regex (which start with `@` and are never
integer-like), and those keep their insertion order among themselves, the
insertion-order model below is observationally equivalent for every
function in the file. -/
def packageKeys : Yaml → List String
  | Yaml.mapping entries =>
    match lookupYaml entries ("packages") with
    | some (Yaml.mapping pkgs) => pkgs.map (fun e => e.1)
    | some (Yaml.listv items) => idxKeys items.length
    | some (Yaml.strv s) => idxKeys s.length
    | some Yaml.nullv => []
    | none => []
  | _ => []

/-- Model of `pkg.match(/^(@[^/]+)\//)` (lines 81 / 107): the captured
scope is the leading `@` plus the maximal non-empty run of non-`/`
characters, which must be followed by a `/`. -/
def scopeOf (pkg : String) : Option String :=
  match pkg.toList with
  | '@' :: rest =>
    match rest.takeWhile (fun c => c ≠ '/') with
    | [] => none
    | s0 :: s1 =>
      match rest.dropWhile (fun c => c ≠ '/') with
      | '/' :: _ => some (String.mk ('@' :: s0 :: s1))
      | _ => none
  | _ => none

/-- JavaScript `Set.prototype.add`: insertion-ordered, duplicates ignored. -/
def addToSet (s : List String) (x : String) : List String :=
  if s.contains x then s else s ++ [x]

/-- The loop of `extractScopes` (lines 80-83) over the package keys. -/
def collectScopes (keys : List String) : List String :=
  keys.foldl
    (fun acc pkg =>
      match scopeOf pkg with
      | some sc => addToSet acc sc
      | none => acc)
    []

/-- The error taxonomy of the lockfile functions: `lockfileNotFound` models
the `Lockfile not found: …` throw, `lockfileParseError` the
`Failed to parse lockfile: …` throw wrapping the message of the parser. -/
inductive LockError where
  | lockfileNotFound (path : String)
  | lockfileParseError (msg : String)
deriving DecidableEq, Repr

/-- Model of `extractScopes(lockPath)` (lines 69-89).  The source first
checks `fs.existsSync` and throws `Lockfile not found`, then reads and
parses the file inside a `try` whose `catch` rethrows as
`Failed to parse lockfile`; the scan loop itself cannot throw. -/
def extractScopes (yamlLoad : String → Except String Yaml) (fs : FileSys)
    (lockPath : String) : Except LockError (List String) :=
  match fs.readFile? lockPath with
  | none => Except.error (LockError.lockfileNotFound lockPath)
  | some content =>
    match yamlLoad content with
    | Except.error e => Except.error (LockError.lockfileParseError e)
    | Except.ok doc => Except.ok (collectScopes (packageKeys doc))

/-- Own property names of `Object.prototype`, the prototype of the plain
object literal that `packagesByRegistry` is initialised to.  Every one of
them reads back a truthy value on an otherwise-empty object (the function
members, and the accessor that yields the prototype object itself), and
none of those values has a callable `push` member. -/
def protoProps : List String :=
  [("constructor"), ("hasOwnProperty"), ("isPrototypeOf"), ("propertyIsEnumerable"),
   ("toLocaleString"), ("toString"), ("valueOf"), ("__proto__"),
   ("__defineGetter__"), ("__defineSetter__"), ("__lookupGetter__"), ("__lookupSetter__")]

/-- The successful write path of the push into `packagesByRegistry[r]`:
append to the existing own entry, or create a fresh singleton entry
(lines 115-118 when no inherited property interferes). -/
def appendReg (m : List (String × List String)) (r pkg : String) :
    List (String × List String) :=
  if m.any (fun p => p.1 == r) then
    m.map (fun p => if p.1 == r then (p.1, p.2 ++ [pkg]) else p)
  else m ++ [(r, [pkg])]

/-- JavaScript push into `packagesByRegistry[r]` (lines 115-118).  The
accumulator is a plain object, so the emptiness check
`!packagesByRegistry[r]` reads through the prototype chain: when `r` is
not an own key but names an `Object.prototype` member, the check sees an
inherited truthy value, the array is never created, and the `.push` on
the inherited member throws a `TypeError`, which the enclosing `try`
rethrows as a parse failure.  An own property is read before the
prototype, hence the order of the branches; an own key naming a prototype
member can never actually arise, because creating it would already have
thrown. -/
def pushReg (m : List (String × List String)) (r pkg : String) :
    Except String (List (String × List String)) :=
  if m.any (fun p => p.1 == r) then
    Except.ok (m.map (fun p => if p.1 == r then (p.1, p.2 ++ [pkg]) else p))
  else if protoProps.contains r then
    Except.error ("packagesByRegistry[registry].push is not a function")
  else Except.ok (m ++ [(r, [pkg])])

/-- Read of `packagesByRegistry[r]`. -/
def lookupReg (m : List (String × List String)) (r : String) : Option (List String) :=
  (m.find? (fun p => p.1 == r)).map (fun p => p.2)

/-- Read of `packagesByRegistry[r]`, with `[]` for an absent registry. -/
def lookupRegD (m : List (String × List String)) (r : String) : List String :=
  (lookupReg m r).getD []

/-- One iteration of the loop of `extractPackagesByRegistry`
(lines 105-121).  The guard is `registry && registry !== defaultRegistry`:
truthiness of a string rules out both `undefined` (no mapping entry, the
`none` branch) and the empty string. -/
def classifyStep (registryMap : List (String × String)) (defaultRegistry : String)
    (acc : List (String × List String)) (pkg : String) :
    Except String (List (String × List String)) :=
  match scopeOf pkg with
  | some scope =>
    match lookupMap registryMap scope with
    | some registry =>
      if !(registry == ("")) && !(registry == defaultRegistry) then
        pushReg acc registry pkg
      else Except.ok acc
    | none => Except.ok acc
  | none => Except.ok acc

/-- The successful path of `classifyStep`, used to state what the loop
computes when no `TypeError` occurs. -/
def classifyStepOk (registryMap : List (String × String)) (defaultRegistry : String)
    (acc : List (String × List String)) (pkg : String) : List (String × List String) :=
  match scopeOf pkg with
  | some scope =>
    match lookupMap registryMap scope with
    | some registry =>
      if !(registry == ("")) && !(registry == defaultRegistry) then
        appendReg acc registry pkg
      else acc
    | none => acc
  | none => acc

/-- The loop of `extractPackagesByRegistry` (lines 105-121): the first
thrown `TypeError` aborts the whole loop, since the `try` surrounds it. -/
def classifyLoop (registryMap : List (String × String)) (defaultRegistry : String) :
    List String → List (String × List String) →
      Except String (List (String × List String))
  | [], acc => Except.ok acc
  | pkg :: keys, acc =>
    match classifyStep registryMap defaultRegistry acc pkg with
    | Except.ok acc2 => classifyLoop registryMap defaultRegistry keys acc2
    | Except.error e => Except.error e

/-- Classification of all package keys, starting from the empty object. -/
def classifyPackages (keys : List String) (registryMap : List (String × String))
    (defaultRegistry : String) : Except String (List (String × List String)) :=
  classifyLoop registryMap defaultRegistry keys []

/-- A package key is safe to classify when it does not trigger the
inherited-property `TypeError`: if its scope maps to a non-empty,
non-default registry, that registry string is not an `Object.prototype`
member name. -/
def safeKey (registryMap : List (String × String)) (defaultRegistry pkg : String) : Bool :=
  match scopeOf pkg with
  | some scope =>
    match lookupMap registryMap scope with
    | some registry =>
      if !(registry == ("")) && !(registry == defaultRegistry) then
        !(protoProps.contains registry)
      else true
    | none => true
  | none => true

/-- Whether classifying all of `keys` avoids the inherited-property
`TypeError`. -/
def safeKeys (keys : List String) (registryMap : List (String × String))
    (defaultRegistry : String) : Bool :=
  keys.all (safeKey registryMap defaultRegistry)

/-- Model of `extractPackagesByRegistry(lockPath, registryMap,
defaultRegistry)` (lines 94-127); same file-existence check as
`extractScopes`, and the catch wraps BOTH a parser failure and a
`TypeError` thrown inside the classification loop as
`Failed to parse lockfile`. -/
def extractPackagesByRegistry (yamlLoad : String → Except String Yaml) (fs : FileSys)
    (lockPath : String) (registryMap : List (String × String)) (defaultRegistry : String) :
    Except LockError (List (String × List String)) :=
  match fs.readFile? lockPath with
  | none => Except.error (LockError.lockfileNotFound lockPath)
  | some content =>
    match yamlLoad content with
    | Except.error e => Except.error (LockError.lockfileParseError e)
    | Except.ok doc =>
      match classifyPackages (packageKeys doc) registryMap defaultRegistry with
      | Except.ok res => Except.ok res
      | Except.error e => Except.error (LockError.lockfileParseError e)

/-! Specification-side descriptions of config layers, used to state the
merge claims: the scoped declarations a layer contains, and the last
declared value for a key. -/

/-- All scoped-registry declarations of one config layer, in line order. -/
def scopedDecls (content : String) : List (String × String) :=
  (splitLines content).filterMap
    (fun line =>
      match classifyLine line with
      | LineKind.scopeDecl k v => some (k, v)
      | _ => none)

/-- Whether a config layer declares a scoped registry for key `k`. -/
def declaresScope (content k : String) : Bool :=
  (scopedDecls content).any (fun d => d.1 == k)

/-- The value a config layer assigns to key `k`: the last scoped
declaration for `k` in the layer (later lines overwrite earlier ones). -/
def lastScopedVal (content k : String) : Option String :=
  (((scopedDecls content).filter (fun d => d.1 == k)).getLast?).map (fun d => d.2)

/-- All default-registry declarations of one config layer, in line order. -/
def defaultDecls (content : String) : List String :=
  (splitLines content).filterMap
    (fun line =>
      match classifyLine line with
      | LineKind.defaultDecl v => some v
      | _ => none)

/-- The last default-registry declaration across a sequence of layers
applied in order. -/
def lastDefaultDecl (contents : List String) : Option String :=
  ((contents.map defaultDecls).flatten).getLast?

/-- Specification-side classification predicate for
`extractPackagesByRegistry`, following the words of the spec amended by the
truthiness guard: package `pkg` belongs to the list of registry `R` iff it
has a scope, the mapping sends that scope to a non-empty registry string
that differs from the default, and that string is `R`. -/
def specClassified (registryMap : List (String × String)) (defaultRegistry R pkg : String) :
    Bool :=
  match scopeOf pkg with
  | some scope =>
    match lookupMap registryMap scope with
    | some r => (!(r == ("")) && !(r == defaultRegistry)) && r == R
    | none => false
  | none => false

/-! Fold lemmas connecting the imperative accumulation of `parseNpmrc` with
the per-layer declaration lists used by the specification. -/

/-- The key of a conditionally-updated pair is unchanged. -/
theorem key_of_upd (p : String × String) (k' v : String) :
    ((if p.1 == k' then (p.1, v) else p).1) = p.1 := by
  split <;> rfl

/-- Searching by key commutes with a map that preserves keys. -/
theorem find?_map_key {β : Type} (m : List (String × β)) (k : String)
    (f : String × β → String × β) (hf : ∀ p, (f p).1 = p.1) :
    (m.map f).find? (fun p => p.1 == k) = ((m.find? (fun p => p.1 == k)).map f) := by
  induction m with
  | nil => rfl
  | cons hd tl ih =>
    simp only [List.map_cons, List.find?]
    rw [hf hd]
    cases hb : (hd.1 == k) with
    | true => rfl
    | false => simpa using ih

/-- Updating the value stored under `k'` does not change lookups of other
keys. -/
theorem lookupMap_map_ne (m : List (String × String)) (k' v k : String) (h : ¬ k = k') :
    lookupMap (m.map (fun p => if p.1 == k' then (p.1, v) else p)) k = lookupMap m k := by
  unfold lookupMap
  rw [find?_map_key m k _ (fun p => key_of_upd p k' v)]
  cases hf : m.find? (fun p => p.1 == k) with
  | none => rfl
  | some p =>
    have hp := List.find?_some hf
    have hp' : p.1 = k := by simpa using hp
    have hcond : ¬ p.1 = k' := by rw [hp']; exact h
    simp [hcond]

/-- After an update of key `k'` on a map that contains `k'`, looking up `k'`
yields the new value. -/
theorem lookupMap_map_self (m : List (String × String)) (k' v : String)
    (h : m.any (fun p => p.1 == k') = true) :
    lookupMap (m.map (fun p => if p.1 == k' then (p.1, v) else p)) k' = some v := by
  unfold lookupMap
  rw [find?_map_key m k' _ (fun p => key_of_upd p k' v)]
  cases hf : m.find? (fun p => p.1 == k') with
  | none =>
    exfalso
    rcases List.any_eq_true.mp h with ⟨p, hp, hpp⟩
    exact (List.find?_eq_none.mp hf p hp) hpp
  | some p =>
    have hp := List.find?_some hf
    have hcond : p.1 = k' := by simpa using hp
    simp [hcond]

/-- A key absent from the map looks up to `none`. -/
theorem lookupMap_eq_none_of_not_any (m : List (String × String)) (k : String)
    (h : m.any (fun p => p.1 == k) = false) :
    lookupMap m k = none := by
  induction m with
  | nil => rfl
  | cons hd tl ih =>
    have hk : (hd.1 == k) = false := by
      cases hq : (hd.1 == k) with
      | false => rfl
      | true => simp [List.any_cons, hq] at h
    have h' : tl.any (fun p => p.1 == k) = false := by
      simpa [List.any_cons, hk] using h
    simp only [lookupMap, List.find?, hk, cond_false] at *
    exact ih h'

/-- Lookup in a map extended on the right by a single binding. -/
theorem lookupMap_append_single (m : List (String × String)) (k' v k : String) :
    lookupMap (m ++ [(k', v)]) k =
      match lookupMap m k with
      | some w => some w
      | none => if k = k' then some v else none := by
  induction m with
  | nil =>
    by_cases hk : k = k'
    · have hb : (k' == k) = true := by simp [hk]
      simp [lookupMap, List.find?, hb, hk]
    · have hb : (k' == k) = false := beq_eq_false_iff_ne.mpr (fun hq => hk hq.symm)
      simp [lookupMap, List.find?, hb, hk]
  | cons hd tl ih =>
    cases hb : (hd.1 == k) with
    | true => simp [lookupMap, List.find?, hb]
    | false =>
      simp only [List.cons_append, lookupMap, List.find?, hb, cond_false] at *
      exact ih

/-- JavaScript semantics of `registryMap[k'] = v` as seen through lookups:
the written key reads back the new value, all other keys are unchanged. -/
theorem lookupMap_updateMap (m : List (String × String)) (k' v k : String) :
    lookupMap (updateMap m k' v) k = if k = k' then some v else lookupMap m k := by
  unfold updateMap
  by_cases ha : m.any (fun p => p.1 == k') = true
  · rw [if_pos ha]
    by_cases hk : k = k'
    · rw [if_pos hk, hk]
      exact lookupMap_map_self m k' v ha
    · rw [if_neg hk]
      exact lookupMap_map_ne m k' v k hk
  · have hfalse : m.any (fun p => p.1 == k') = false := by
      cases hq : m.any (fun p => p.1 == k') with
      | false => rfl
      | true => exact absurd hq ha
    rw [if_neg (by simp [hfalse])]
    rw [lookupMap_append_single]
    by_cases hk : k = k'
    · subst hk
      have hnone : lookupMap m k = none := lookupMap_eq_none_of_not_any m k hfalse
      simp [hnone]
    · cases hl : lookupMap m k <;> simp [hk, hl]

/-- Effect of one config line on lookups in the registry map. -/
theorem lookupMap_applyLine (st : NpmrcState) (line k : String) :
    lookupMap (applyLine st line).registryMap k =
      match classifyLine line with
      | LineKind.scopeDecl k' v => if k = k' then some v else lookupMap st.registryMap k
      | _ => lookupMap st.registryMap k := by
  unfold applyLine
  cases classifyLine line <;> simp [lookupMap_updateMap]

/-- Effect of one config line on the default registry. -/
theorem defaultRegistry_applyLine (st : NpmrcState) (line : String) :
    (applyLine st line).defaultRegistry =
      match classifyLine line with
      | LineKind.defaultDecl v => v
      | _ => st.defaultRegistry := by
  unfold applyLine
  cases classifyLine line <;> rfl

/-- Scan of a line list for the last scoped declaration of key `k`,
threading an initial value: the shape in which the loop of `parseNpmrc`
consumes declarations. -/
def scopedFrom (lines : List String) (k : String) (a : Option String) : Option String :=
  lines.foldl
    (fun acc line =>
      match classifyLine line with
      | LineKind.scopeDecl k' v => if k = k' then some v else acc
      | _ => acc)
    a

/-- Scan of a line list for the last default-registry declaration,
threading an initial value. -/
def defaultFrom (lines : List String) (a : String) : String :=
  lines.foldl
    (fun acc line =>
      match classifyLine line with
      | LineKind.defaultDecl v => v
      | _ => acc)
    a

/-- Unfolding one step of the scoped-declaration scan. -/
theorem scopedFrom_cons (l : String) (ls : List String) (k : String) (a : Option String) :
    scopedFrom (l :: ls) k a =
      scopedFrom ls k
        (match classifyLine l with
         | LineKind.scopeDecl k' v => if k = k' then some v else a
         | _ => a) := rfl

/-- Unfolding one step of the default-registry scan. -/
theorem defaultFrom_cons (l : String) (ls : List String) (a : String) :
    defaultFrom (l :: ls) a =
      defaultFrom ls
        (match classifyLine l with
         | LineKind.defaultDecl v => v
         | _ => a) := rfl

/-- Lookups after folding `applyLine` over a line list are computed by the
last-declaration scan. -/
theorem lookupMap_foldl_applyLine (lines : List String) (st : NpmrcState) (k : String) :
    lookupMap ((lines.foldl applyLine st)).registryMap k =
      scopedFrom lines k (lookupMap st.registryMap k) := by
  induction lines generalizing st with
  | nil => rfl
  | cons l ls ih =>
    rw [List.foldl_cons, ih (applyLine st l), lookupMap_applyLine, scopedFrom_cons]

/-- The default registry after folding `applyLine` over a line list is
computed by the last-declaration scan. -/
theorem defaultRegistry_foldl_applyLine (lines : List String) (st : NpmrcState) :
    ((lines.foldl applyLine st)).defaultRegistry =
      defaultFrom lines st.defaultRegistry := by
  induction lines generalizing st with
  | nil => rfl
  | cons l ls ih =>
    rw [List.foldl_cons, ih (applyLine st l), defaultRegistry_applyLine, defaultFrom_cons]

/-- The optional last element of a non-empty list, in `getD` form. -/
theorem getLast?_cons_eq (x : α) (xs : List α) :
    (x :: xs).getLast? = some ((xs.getLast?).getD x) := by
  induction xs generalizing x with
  | nil => rfl
  | cons y ys ih =>
    rw [List.getLast?_cons_cons, ih y]
    rfl

/-- Last element of an appended list, in `getD` form. -/
theorem getLast?_append_getD (l₁ l₂ : List α) (d : α) :
    (((l₁ ++ l₂).getLast?).getD d) = ((l₂.getLast?).getD ((l₁.getLast?).getD d)) := by
  induction l₁ generalizing d with
  | nil => rfl
  | cons x xs ih =>
    simp only [List.cons_append, getLast?_cons_eq, Option.getD_some]
    exact ih x

/-- The last-scoped-declaration scan equals the last element of the
filtered declaration list. -/
theorem scopedFrom_eq_getLast (lines : List String) (k : String) (a : Option String) :
    scopedFrom lines k a =
      match ((lines.filterMap
          (fun line =>
            match classifyLine line with
            | LineKind.scopeDecl k' v => some (k', v)
            | _ => none)).filter (fun d => d.1 == k)).getLast? with
      | some d => some d.2
      | none => a := by
  induction lines generalizing a with
  | nil => rfl
  | cons l ls ih =>
    rw [scopedFrom_cons]
    cases hc : classifyLine l with
    | scopeDecl k' v =>
      change scopedFrom ls k (if k = k' then some v else a) = _
      by_cases hk : k = k'
      · have hb : (k' == k) = true := by simp [hk]
        rw [if_pos hk, ih (some v)]
        have hfc : List.filter (fun d => d.1 == k)
            (List.filterMap
              (fun line =>
                match classifyLine line with
                | LineKind.scopeDecl k' v => some (k', v)
                | _ => none)
              (l :: ls)) =
            (k', v) :: List.filter (fun d => d.1 == k)
              (List.filterMap
                (fun line =>
                  match classifyLine line with
                  | LineKind.scopeDecl k' v => some (k', v)
                  | _ => none)
                ls) := by
          simp [List.filterMap_cons, hc, List.filter_cons, hb]
        rw [hfc, getLast?_cons_eq]
        cases hl : (List.filter (fun d => d.1 == k)
            (List.filterMap
              (fun line =>
                match classifyLine line with
                | LineKind.scopeDecl k' v => some (k', v)
                | _ => none)
              ls)).getLast? with
        | some d => rfl
        | none => rfl
      · have hb : (k' == k) = false := beq_eq_false_iff_ne.mpr (fun hq => hk hq.symm)
        rw [if_neg hk, ih a]
        simp [List.filterMap_cons, hc, List.filter_cons, hb]
    | defaultDecl v =>
      change scopedFrom ls k a = _
      rw [ih a]
      simp [List.filterMap_cons, hc]
    | skip =>
      change scopedFrom ls k a = _
      rw [ih a]
      simp [List.filterMap_cons, hc]

/-- The last-default-declaration scan equals the last element of the
declaration list. -/
theorem defaultFrom_eq_getLast (lines : List String) (a : String) :
    defaultFrom lines a =
      (((lines.filterMap
          (fun line =>
            match classifyLine line with
            | LineKind.defaultDecl v => some v
            | _ => none))).getLast?).getD a := by
  induction lines generalizing a with
  | nil => rfl
  | cons l ls ih =>
    rw [defaultFrom_cons]
    cases hc : classifyLine l with
    | scopeDecl k' v =>
      change defaultFrom ls a = _
      rw [ih a]
      simp [List.filterMap_cons, hc]
    | defaultDecl v =>
      change defaultFrom ls v = _
      rw [ih v]
      simp [List.filterMap_cons, hc, getLast?_cons_eq]
    | skip =>
      change defaultFrom ls a = _
      rw [ih a]
      simp [List.filterMap_cons, hc]

/-- Lookups after applying one whole config file are determined by the
last declaration of the file for the key, falling back to the previous state. -/
theorem lookupMap_applyFile (content : String) (st : NpmrcState) (k : String) :
    lookupMap (applyFile st content).registryMap k =
      match lastScopedVal content k with
      | some v => some v
      | none => lookupMap st.registryMap k := by
  unfold applyFile
  rw [lookupMap_foldl_applyLine, scopedFrom_eq_getLast]
  unfold lastScopedVal scopedDecls
  cases ((((splitLines content).filterMap
      (fun line =>
        match classifyLine line with
        | LineKind.scopeDecl k' v => some (k', v)
        | _ => none))).filter (fun d => d.1 == k)).getLast? <;> rfl

/-- The default registry after applying one whole config file is its
last default declaration, falling back to the previous state. -/
theorem defaultRegistry_applyFile (content : String) (st : NpmrcState) :
    (applyFile st content).defaultRegistry =
      ((defaultDecls content).getLast?).getD st.defaultRegistry := by
  unfold applyFile
  rw [defaultRegistry_foldl_applyLine, defaultFrom_eq_getLast]
  rfl

/-- The path loop of `parseNpmrc` applies exactly the contents of the
existing files, in order. -/
theorem foldl_readFile (fs : FileSys) (order : List String) (st : NpmrcState) :
    order.foldl
      (fun st p =>
        match fs.readFile? p with
        | some content => applyFile st content
        | none => st)
      st = (order.filterMap fs.readFile?).foldl applyFile st := by
  induction order generalizing st with
  | nil => rfl
  | cons p ps ih =>
    cases hr : fs.readFile? p <;>
      simp [List.filterMap_cons, hr, ih]

/-- The default registry of the whole fold over file contents is the last
default declaration across all layers. -/
theorem defaultRegistry_foldl_applyFile (contents : List String) (st : NpmrcState) :
    ((contents.foldl applyFile st)).defaultRegistry =
      (lastDefaultDecl contents).getD st.defaultRegistry := by
  induction contents generalizing st with
  | nil => rfl
  | cons c cs ih =>
    simp only [List.foldl_cons]
    rw [ih, defaultRegistry_applyFile]
    unfold lastDefaultDecl
    simp only [List.map_cons, List.flatten_cons]
    rw [getLast?_append_getD]

/-- A layer declares `k` exactly when it has a last value for `k`. -/
theorem declaresScope_eq_isSome (content k : String) :
    declaresScope content k = (lastScopedVal content k).isSome := by
  unfold declaresScope lastScopedVal
  cases hf : (scopedDecls content).filter (fun d => d.1 == k) with
  | nil =>
    cases ha : (scopedDecls content).any (fun d => d.1 == k) with
    | false => rfl
    | true =>
      exfalso
      rcases List.any_eq_true.mp ha with ⟨d, hd, hp⟩
      have hmem : d ∈ (scopedDecls content).filter (fun d => d.1 == k) :=
        List.mem_filter.mpr ⟨hd, hp⟩
      rw [hf] at hmem
      exact absurd hmem (List.not_mem_nil d)
  | cons d ds =>
    rw [getLast?_cons_eq]
    have hmem : d ∈ (scopedDecls content).filter (fun d => d.1 == k) := by
      rw [hf]; exact List.mem_cons_self d ds
    have hmem' := List.mem_filter.mp hmem
    exact List.any_eq_true.mpr ⟨d, hmem'.1, hmem'.2⟩

/-- Claim C8: the default registry returned by `parseNpmrc` is the
well-known public registry URL unless some processed layer declares a
default-registry line, in which case it is the (already trimmed) value of
the last such declaration in application order (home first, project last,
i.e. the reverse of the input sequence, restricted to existing files). -/
theorem parseNpmrc_default_registry (fs : FileSys) (filePaths : List String) :
    (parseNpmrc fs filePaths).2.defaultRegistry =
      (lastDefaultDecl (filePaths.reverse.filterMap fs.readFile?)).getD
        ("https://registry.npmjs.org/") := by
  show (parseNpmrcCore fs filePaths.reverse).defaultRegistry = _
  unfold parseNpmrcCore
  rw [foldl_readFile, defaultRegistry_foldl_applyFile]
  rfl

/-- Claim C1: with the two config layers in locate order (project first,
user second; `parseNpmrc` reverses this so the user layer is applied first
and the project layer last), a key declared by the project layer — whether
or not the user layer also declares it — maps to the project-level value,
and a key declared only by the user layer maps to the user-level value. -/
theorem parseNpmrc_merge_precedence (projPath projC userPath userC k : String)
    (hne : ¬ projPath = userPath) :
    (declaresScope projC k = true →
      lookupMap ((parseNpmrc (FileSys.mk [(projPath, projC), (userPath, userC)])
          [projPath, userPath]).2).registryMap k = lastScopedVal projC k) ∧
    (declaresScope projC k = false → declaresScope userC k = true →
      lookupMap ((parseNpmrc (FileSys.mk [(projPath, projC), (userPath, userC)])
          [projPath, userPath]).2).registryMap k = lastScopedVal userC k) := by
  have hb : (projPath == userPath) = false := beq_eq_false_iff_ne.mpr hne
  have hru : (FileSys.mk [(projPath, projC), (userPath, userC)]).readFile? userPath =
      some userC := by
    simp [FileSys.readFile?, List.find?, hb]
  have hrp : (FileSys.mk [(projPath, projC), (userPath, userC)]).readFile? projPath =
      some projC := by
    simp [FileSys.readFile?, List.find?]
  have hstate : (parseNpmrc (FileSys.mk [(projPath, projC), (userPath, userC)])
      [projPath, userPath]).2 = applyFile (applyFile initState userC) projC := by
    simp [parseNpmrc, parseNpmrcCore, hru, hrp]
  rw [hstate, lookupMap_applyFile, lookupMap_applyFile]
  constructor
  · intro hdecl
    have hsome : (lastScopedVal projC k).isSome = true := by
      rw [← declaresScope_eq_isSome]; exact hdecl
    cases hv : lastScopedVal projC k with
    | some v => rfl
    | none => rw [hv] at hsome; simp at hsome
  · intro hdecl hdecl2
    have hnone : lastScopedVal projC k = none := by
      cases hv : lastScopedVal projC k with
      | none => rfl
      | some v => rw [declaresScope_eq_isSome, hv] at hdecl; simp at hdecl
    rw [hnone]
    cases hv2 : lastScopedVal userC k with
    | some v => rfl
    | none => rfl

/-! Key-shape invariant of the registry map (claim C9). -/

/-- The shape every registry-map key produced by `parseNpmrc` has: it
starts with `@` and contains no colon (the scope capture is `@` followed
by a non-empty run of non-`:` characters). -/
def GoodKey (k : String) : Prop :=
  k.toList.head? = some '@' ∧ ¬ (':' ∈ k.toList)

/-- A successful scoped match captures `@` plus a non-empty colon-free
run. -/
theorem scopedMatchL_key (l : List Char) (k v : String)
    (h : scopedMatchL l = some (k, v)) :
    ∃ s0 s1, k = String.mk ('@' :: s0 :: s1) ∧ (∀ c ∈ s0 :: s1, ¬ c = ':') := by
  unfold scopedMatchL at h
  split at h
  case h_2 => exact absurd h (by simp)
  case h_1 c rest =>
    split at h
    case h_1 => exact absurd h (by simp)
    case h_2 s0 s1 hts =>
      split at h
      case h_2 => exact absurd h (by simp)
      case h_1 tail hds =>
        split at h
        case isFalse => exact absurd h (by simp)
        case isTrue hreg =>
          rcases Option.map_eq_some'.mp h with ⟨w, hw, hwk⟩
          refine ⟨s0, s1, ?_, ?_⟩
          · injection hwk with h1 h2
            exact h1.symm
          · intro c hc
            have hmem : c ∈ rest.takeWhile (fun c => ¬ c = ':') := by
              rw [hts]; exact hc
            have := List.mem_takeWhile_imp hmem
            simpa using this

/-- A line classified as a scoped declaration has a well-shaped key. -/
theorem classifyLine_scope_key (line k v : String)
    (h : classifyLine line = LineKind.scopeDecl k v) : GoodKey k := by
  unfold classifyLine at h
  split at h
  · exact LineKind.noConfusion h
  next c cs hcl =>
    split at h
    next k' v' hm =>
      have hkk : k' = k ∧ v' = v := by
        have := h
        injection this with h1 h2
        exact ⟨h1, h2⟩
      rcases scopedMatchL_key (c :: cs) k' v' hm with ⟨s0, s1, hk, hcs⟩
      rw [hkk.1] at hk
      subst hk
      constructor
      · rfl
      · intro hmem
        have : (':' : Char) = '@' ∨ (':' : Char) ∈ s0 :: s1 := by
          simpa using hmem
        rcases this with hq | hq
        · exact absurd hq (by decide)
        · exact (hcs ':' hq) rfl
    next hm =>
      split at h
      · exact LineKind.noConfusion h
      · exact LineKind.noConfusion h

/-- Updating a map with a well-shaped key preserves key shapes. -/
theorem updateMap_keys (m : List (String × String)) (k v : String)
    (hm : ∀ p ∈ m, GoodKey p.1) (hk : GoodKey k) :
    ∀ p ∈ updateMap m k v, GoodKey p.1 := by
  unfold updateMap
  split
  · intro p hp
    rcases List.mem_map.mp hp with ⟨q, hq, hqe⟩
    have hgood := hm q hq
    rw [← hqe, key_of_upd]
    exact hgood
  · intro p hp
    rcases List.mem_append.mp hp with hp | hp
    · exact hm p hp
    · have : p = (k, v) := by simpa using hp
      rw [this]
      exact hk

/-- One config line preserves key shapes. -/
theorem applyLine_keys (st : NpmrcState) (line : String)
    (hm : ∀ p ∈ st.registryMap, GoodKey p.1) :
    ∀ p ∈ (applyLine st line).registryMap, GoodKey p.1 := by
  unfold applyLine
  cases hc : classifyLine line with
  | scopeDecl k v => exact updateMap_keys st.registryMap k v hm (classifyLine_scope_key line k v hc)
  | defaultDecl v => exact hm
  | skip => exact hm

/-- One config file preserves key shapes. -/
theorem applyFile_keys (content : String) (st : NpmrcState)
    (hm : ∀ p ∈ st.registryMap, GoodKey p.1) :
    ∀ p ∈ (applyFile st content).registryMap, GoodKey p.1 := by
  unfold applyFile
  generalize splitLines content = lines
  induction lines generalizing st with
  | nil => exact hm
  | cons l ls ih =>
    rw [List.foldl_cons]
    exact ih (applyLine st l) (applyLine_keys st l hm)

/-- Every key of the registry map returned by `parseNpmrc` is well
shaped. -/
theorem parseNpmrc_keys_good (fs : FileSys) (filePaths : List String) :
    ∀ p ∈ (parseNpmrc fs filePaths).2.registryMap, GoodKey p.1 := by
  show ∀ p ∈ (parseNpmrcCore fs filePaths.reverse).registryMap, GoodKey p.1
  unfold parseNpmrcCore
  rw [foldl_readFile]
  generalize filePaths.reverse.filterMap fs.readFile? = contents
  have master : ∀ (cs : List String) (st : NpmrcState),
      (∀ p ∈ st.registryMap, GoodKey p.1) →
      ∀ p ∈ (cs.foldl applyFile st).registryMap, GoodKey p.1 := by
    intro cs
    induction cs with
    | nil => intro st h; exact h
    | cons c cs ih =>
      intro st h
      rw [List.foldl_cons]
      exact ih (applyFile st c) (applyFile_keys c st h)
  exact master contents initState (by intro p hp; exact absurd hp (List.not_mem_nil p))

/-- Claim C9 (amended): for every file system and every input sequence,
every key of the `RegistryMapping` returned by `parseNpmrc` starts with
`@` and contains no `:` character.  (The original claim said no `/`
character; `registryMap_key_with_slash_cex` refutes that, since the scope
capture `[^:]+` accepts slashes.) -/
theorem registryMap_keys_shape (fs : FileSys) (filePaths : List String) :
    ((parseNpmrc fs filePaths).2.registryMap.all
      (fun p => p.1.toList.head? == some '@' && !(p.1.toList.contains ':'))) = true := by
  rw [List.all_eq_true]
  intro p hp
  rcases parseNpmrc_keys_good fs filePaths p hp with ⟨h1, h2⟩
  rw [h1]
  simp [List.contains, h2]
  simpa using h2

/-! Lemmas about scope extraction (claims C3, C5, C10). -/

/-- Membership in a JavaScript-set insertion. -/
theorem mem_addToSet (s : List String) (x y : String) :
    y ∈ addToSet s x ↔ y ∈ s ∨ y = x := by
  unfold addToSet
  split
  next hc =>
    have hx : x ∈ s := List.elem_iff.mp hc
    constructor
    · exact Or.inl
    · rintro (h | rfl)
      · exact h
      · exact hx
  next hc => simp [List.mem_append]

/-- Inserting into a duplicate-free set keeps it duplicate-free. -/
theorem nodup_addToSet (s : List String) (x : String) (h : s.Nodup) :
    (addToSet s x).Nodup := by
  unfold addToSet
  split
  next hc => exact h
  next hc =>
    have hx : ¬ x ∈ s := fun hmem => hc (List.elem_iff.mpr hmem)
    rw [← List.concat_eq_append]
    exact List.Nodup.concat hx h

/-- Membership in the scope-collection fold. -/
theorem mem_collectScopes_aux (keys : List String) (acc : List String) (x : String) :
    (x ∈ keys.foldl
        (fun acc pkg =>
          match scopeOf pkg with
          | some sc => addToSet acc sc
          | none => acc)
        acc) ↔
      x ∈ acc ∨ ∃ pkg ∈ keys, scopeOf pkg = some x := by
  induction keys generalizing acc with
  | nil => simp
  | cons pkg keys ih =>
    rw [List.foldl_cons]
    cases hs : scopeOf pkg with
    | none =>
      rw [ih]
      simp only [List.mem_cons]
      constructor
      · rintro (h | ⟨p, hp, hps⟩)
        · exact Or.inl h
        · exact Or.inr ⟨p, Or.inr hp, hps⟩
      · rintro (h | ⟨p, hp | hp, hps⟩)
        · exact Or.inl h
        · rw [hp] at hps
          rw [hs] at hps
          exact Option.noConfusion hps
        · exact Or.inr ⟨p, hp, hps⟩
    | some sc =>
      rw [ih]
      simp only [List.mem_cons, mem_addToSet]
      constructor
      · rintro ((h | rfl) | ⟨p, hp, hps⟩)
        · exact Or.inl h
        · exact Or.inr ⟨pkg, Or.inl rfl, hs⟩
        · exact Or.inr ⟨p, Or.inr hp, hps⟩
      · rintro (h | ⟨p, hp | hp, hps⟩)
        · exact Or.inl (Or.inl h)
        · rw [hp, hs] at hps
          injection hps with hx
          exact Or.inl (Or.inr hx.symm)
        · exact Or.inr ⟨p, hp, hps⟩

/-- Membership in the collected scope set: exactly the captured scopes of
the package keys. -/
theorem mem_collectScopes (keys : List String) (x : String) :
    x ∈ collectScopes keys ↔ ∃ pkg ∈ keys, scopeOf pkg = some x := by
  unfold collectScopes
  rw [mem_collectScopes_aux]
  simp

/-- The scope-collection fold never produces duplicates. -/
theorem nodup_collectScopes_aux (keys : List String) (acc : List String)
    (h : acc.Nodup) :
    (keys.foldl
        (fun acc pkg =>
          match scopeOf pkg with
          | some sc => addToSet acc sc
          | none => acc)
        acc).Nodup := by
  induction keys generalizing acc with
  | nil => exact h
  | cons pkg keys ih =>
    rw [List.foldl_cons]
    cases hs : scopeOf pkg with
    | none => exact ih acc h
    | some sc => exact ih (addToSet acc sc) (nodup_addToSet acc sc h)

/-- The collected scope set is duplicate-free. -/
theorem nodup_collectScopes (keys : List String) : (collectScopes keys).Nodup :=
  nodup_collectScopes_aux keys [] List.nodup_nil

/-- A duplicate-free list whose membership is exactly `{a}` is `[a]`. -/
theorem nodup_singleton_of_mem_iff (l : List String) (a : String) (hnd : l.Nodup)
    (hiff : ∀ x, x ∈ l ↔ x = a) : l = [a] := by
  cases l with
  | nil => exact absurd ((hiff a).mpr rfl) (List.not_mem_nil a)
  | cons b t =>
    have hb : b = a := (hiff b).mp (List.mem_cons_self b t)
    subst hb
    have ht : t = [] := by
      cases t with
      | nil => rfl
      | cons c u =>
        have hc : c = b := (hiff c).mp (List.mem_cons_of_mem b (List.mem_cons_self c u))
        subst hc
        rcases List.nodup_cons.mp hnd with ⟨hna, _⟩
        exact absurd (List.mem_cons_self c u) hna
    rw [ht]

/-- A successful scope match captures `@` plus a non-empty slash-free
run. -/
theorem scopeOf_shape (pkg s : String) (h : scopeOf pkg = some s) :
    ∃ s0 s1, s = String.mk ('@' :: s0 :: s1) ∧ (∀ c ∈ s0 :: s1, ¬ c = '/') := by
  unfold scopeOf at h
  split at h
  case h_2 => exact absurd h (by simp)
  case h_1 rest heqL =>
    split at h
    case h_1 => exact absurd h (by simp)
    case h_2 s0 s1 hts =>
      split at h
      case h_2 => exact absurd h (by simp)
      case h_1 tail hds =>
        injection h with h1
        refine ⟨s0, s1, h1.symm, ?_⟩
        intro c hc
        have hmem : c ∈ rest.takeWhile (fun c => ¬ c = '/') := by
          rw [hts]; exact hc
        simpa using List.mem_takeWhile_imp hmem

/-- Claim C10: every element of the set returned by `extractScopes` starts
with `@`, has length at least 2 and contains no `/`; consequently no
registry-map key containing a `/` can equal an extracted scope. -/
theorem extractScopes_scope_shape (yamlLoad : String → Except String Yaml) (fs : FileSys)
    (lockPath : String) (scopes : List String)
    (h : extractScopes yamlLoad fs lockPath = Except.ok scopes) :
    ∀ s ∈ scopes,
      (s.toList.head? = some '@' ∧ 2 ≤ s.length ∧ ¬ ('/' ∈ s.toList)) ∧
      (∀ regKey : String, '/' ∈ regKey.toList → ¬ regKey = s) := by
  have hcs : ∃ keys, scopes = collectScopes keys := by
    unfold extractScopes at h
    split at h
    · exact Except.noConfusion h
    · split at h
      · exact Except.noConfusion h
      next doc hdoc =>
        injection h with h1
        exact ⟨packageKeys doc, h1.symm⟩
  rcases hcs with ⟨keys, hkeys⟩
  subst hkeys
  intro s hs
  rcases (mem_collectScopes keys s).mp hs with ⟨pkg, _, hsc⟩
  rcases scopeOf_shape pkg s hsc with ⟨s0, s1, hse, hfree⟩
  subst hse
  have hnoslash : ¬ ('/' ∈ (String.mk ('@' :: s0 :: s1)).toList) := by
    intro hmem
    have : ('/' : Char) = '@' ∨ ('/' : Char) ∈ s0 :: s1 := by simpa using hmem
    rcases this with hq | hq
    · exact absurd hq (by decide)
    · exact (hfree '/' hq) rfl
  refine ⟨⟨rfl, ?_, hnoslash⟩, ?_⟩
  · show 2 ≤ ('@' :: s0 :: s1).length
    simp
  · intro regKey hslash heq
    rw [heq] at hslash
    exact hnoslash hslash

/-- Claim C3: on a lockfile whose `packages` mapping has exactly the keys
`@foo/bar`, `baz` and `@foo/qux` (in any order), `extractScopes` returns
the set containing exactly `@foo`: the duplicate scope collapses and the
unscoped key contributes nothing. -/
theorem extractScopes_foo_example (yamlLoad : String → Except String Yaml) (fs : FileSys)
    (lockPath c : String) (entries pkgs : List (String × Yaml))
    (hc : fs.readFile? lockPath = some c)
    (hy : yamlLoad c = Except.ok (Yaml.mapping entries))
    (hpk : lookupYaml entries ("packages") = some (Yaml.mapping pkgs))
    (hperm : (pkgs.map (fun e => e.1)).Perm [("@foo/bar"), ("baz"), ("@foo/qux")]) :
    extractScopes yamlLoad fs lockPath = Except.ok [("@foo")] := by
  unfold extractScopes
  simp only [hc, hy]
  have hkeys : packageKeys (Yaml.mapping entries) = pkgs.map (fun e => e.1) := by
    show (match lookupYaml entries ("packages") with
      | some (Yaml.mapping pkgs) => pkgs.map (fun e => e.1)
      | some (Yaml.listv items) => idxKeys items.length
      | some (Yaml.strv s) => idxKeys s.length
      | some Yaml.nullv => []
      | none => []) = pkgs.map (fun e => e.1)
    rw [hpk]
  rw [hkeys]
  congr 1
  apply nodup_singleton_of_mem_iff _ _ (nodup_collectScopes _)
  intro x
  rw [mem_collectScopes]
  constructor
  · rintro ⟨pkg, hmem, hsc⟩
    have hpm : pkg ∈ [("@foo/bar"), ("baz"), ("@foo/qux")] := hperm.mem_iff.mp hmem
    simp only [List.mem_cons, List.not_mem_nil, or_false] at hpm
    rcases hpm with rfl | rfl | rfl
    · rw [show scopeOf ("@foo/bar") = some ("@foo") from rfl] at hsc
      injection hsc with hx
      exact hx.symm
    · rw [show scopeOf ("baz") = none from rfl] at hsc
      exact Option.noConfusion hsc
    · rw [show scopeOf ("@foo/qux") = some ("@foo") from rfl] at hsc
      injection hsc with hx
      exact hx.symm
  · rintro rfl
    refine ⟨("@foo/bar"), ?_, rfl⟩
    exact hperm.mem_iff.mpr (by decide)

/-! Index keys of non-mapping `packages` values never look like scopes
(claim C5). -/

/-- The decimal digit function never emits `@`. -/
theorem digitChar_ne_at (m : Nat) (hm : m < 10) : ¬ Nat.digitChar m = '@' := by
  interval_cases m <;> decide

/-- No character of a digit expansion is `@`. -/
theorem toDigitsCore_ne_at (fuel : Nat) : ∀ (n : Nat) (ds : List Char),
    (∀ c ∈ ds, ¬ c = '@') → ∀ c ∈ Nat.toDigitsCore 10 fuel n ds, ¬ c = '@' := by
  induction fuel with
  | zero => intro n ds h; exact h
  | succ fuel ih =>
    intro n ds h c hc
    simp only [Nat.toDigitsCore] at hc
    split at hc
    · rcases List.mem_cons.mp hc with rfl | hc
      · exact digitChar_ne_at (n % 10) (Nat.mod_lt n (by decide))
      · exact h c hc
    · refine ih (n / 10) (Nat.digitChar (n % 10) :: ds) ?_ c hc
      intro c' hc'
      rcases List.mem_cons.mp hc' with rfl | hc'
      · exact digitChar_ne_at (n % 10) (Nat.mod_lt n (by decide))
      · exact h c' hc'

/-- No character of the decimal representation of a natural number is
`@`. -/
theorem repr_ne_at (i : Nat) : ∀ c ∈ (Nat.repr i).toList, ¬ c = '@' := by
  have hrepr : (Nat.repr i).toList = Nat.toDigits 10 i := rfl
  rw [hrepr]
  exact toDigitsCore_ne_at (i + 1) i []
    (fun c hc => absurd hc (List.not_mem_nil c))

/-- A string that does not start with `@` has no scope. -/
theorem scopeOf_no_at (s : String) (h : ¬ s.toList.head? = some '@') :
    scopeOf s = none := by
  unfold scopeOf
  split
  next rest heqL => exact absurd (by rw [heqL]; rfl) h
  next => rfl

/-- The decimal representation of a natural number has no scope. -/
theorem scopeOf_repr (i : Nat) : scopeOf (Nat.repr i) = none := by
  apply scopeOf_no_at
  intro hh
  cases hl : (Nat.repr i).toList with
  | nil => rw [hl] at hh; exact Option.noConfusion hh
  | cons c cs =>
    rw [hl] at hh
    injection hh with hc
    exact (repr_ne_at i c (by rw [hl]; exact List.mem_cons_self c cs)) hc

/-- Index keys (of arrays and strings) have no scope. -/
theorem scopeOf_of_mem_idxKeys (n : Nat) (key : String) (h : key ∈ idxKeys n) :
    scopeOf key = none := by
  rcases List.mem_map.mp h with ⟨i, _, rfl⟩
  exact scopeOf_repr i

/-- Scope collection over keys without scopes is empty. -/
theorem collectScopes_eq_nil (keys : List String)
    (h : ∀ key ∈ keys, scopeOf key = none) : collectScopes keys = [] := by
  refine List.eq_nil_iff_forall_not_mem.mpr (fun x hx => ?_)
  rcases (mem_collectScopes keys x).mp hx with ⟨pkg, hm, hs⟩
  rw [h pkg hm] at hs
  exact Option.noConfusion hs

/-- Registry classification over keys without scopes succeeds and is
empty: the push (and so the inherited-property throw) is unreachable. -/
theorem classifyPackages_eq_nil (keys : List String)
    (registryMap : List (String × String)) (defaultRegistry : String)
    (h : ∀ key ∈ keys, scopeOf key = none) :
    classifyPackages keys registryMap defaultRegistry = Except.ok [] := by
  unfold classifyPackages
  have aux : ∀ (ks : List String) (acc : List (String × List String)),
      (∀ key ∈ ks, scopeOf key = none) →
      classifyLoop registryMap defaultRegistry ks acc = Except.ok acc := by
    intro ks
    induction ks with
    | nil => intro acc h2; rfl
    | cons pkg ks ih =>
      intro acc h2
      have hs : scopeOf pkg = none := h2 pkg (List.mem_cons_self pkg ks)
      show (match classifyStep registryMap defaultRegistry acc pkg with
        | Except.ok acc2 => classifyLoop registryMap defaultRegistry ks acc2
        | Except.error e => Except.error e) = Except.ok acc
      rw [show classifyStep registryMap defaultRegistry acc pkg = Except.ok acc from by
        unfold classifyStep
        rw [hs]]
      exact ih acc (fun key hk => h2 key (List.mem_cons_of_mem pkg hk))
  exact aux keys [] h

/-- Claim C5: when the top-level `packages` value of the parsed document is
present but not a mapping (a list, a string, or null), `extractScopes`
returns the empty set and `extractPackagesByRegistry` returns an empty
result, with no error: the array/string index keys (or no keys at all)
never match the scope regex. -/
theorem nonmapping_packages_graceful (yamlLoad : String → Except String Yaml)
    (fs : FileSys) (lockPath : String) (registryMap : List (String × String))
    (defaultRegistry c : String) (entries : List (String × Yaml)) (pv : Yaml)
    (hc : fs.readFile? lockPath = some c)
    (hy : yamlLoad c = Except.ok (Yaml.mapping entries))
    (hpk : lookupYaml entries ("packages") = some pv)
    (hnm : pv.isMapping = false) :
    extractScopes yamlLoad fs lockPath = Except.ok [] ∧
    extractPackagesByRegistry yamlLoad fs lockPath registryMap defaultRegistry =
      Except.ok [] := by
  have hkeys : ∀ key ∈ packageKeys (Yaml.mapping entries), scopeOf key = none := by
    show ∀ key ∈ (match lookupYaml entries ("packages") with
      | some (Yaml.mapping pkgs) => pkgs.map (fun e : String × Yaml => e.1)
      | some (Yaml.listv items) => idxKeys items.length
      | some (Yaml.strv s) => idxKeys s.length
      | some Yaml.nullv => []
      | none => []), scopeOf key = none
    rw [hpk]
    cases pv with
    | mapping pkgs => simp [Yaml.isMapping] at hnm
    | listv items => exact fun key hk => scopeOf_of_mem_idxKeys items.length key hk
    | strv s => exact fun key hk => scopeOf_of_mem_idxKeys s.length key hk
    | nullv => exact fun key hk => absurd hk (List.not_mem_nil key)
  constructor
  · unfold extractScopes
    simp only [hc, hy]
    rw [collectScopes_eq_nil _ hkeys]
  · unfold extractPackagesByRegistry
    simp only [hc, hy]
    rw [classifyPackages_eq_nil _ registryMap defaultRegistry hkeys]

/-! Classification lemmas (claim C2). -/

/-- Appending to the list stored under `r` does not change reads of other
registries. -/
theorem lookupReg_map_ne (m : List (String × List String)) (r pkg R : String)
    (h : ¬ R = r) :
    lookupReg (m.map (fun p => if p.1 == r then (p.1, p.2 ++ [pkg]) else p)) R =
      lookupReg m R := by
  unfold lookupReg
  rw [find?_map_key m R _ (fun p => by split <;> rfl)]
  cases hf : m.find? (fun p => p.1 == R) with
  | none => rfl
  | some p =>
    have hp := List.find?_some hf
    have hp' : p.1 = R := by simpa using hp
    have hcond : ¬ p.1 = r := by rw [hp']; exact h
    simp [hcond]

/-- Appending to the list stored under `r`, seen through a read of `r`. -/
theorem lookupReg_map_self (m : List (String × List String)) (r pkg : String) :
    lookupReg (m.map (fun p => if p.1 == r then (p.1, p.2 ++ [pkg]) else p)) r =
      (lookupReg m r).map (fun l => l ++ [pkg]) := by
  unfold lookupReg
  rw [find?_map_key m r _ (fun p => by split <;> rfl)]
  cases hf : m.find? (fun p => p.1 == r) with
  | none => rfl
  | some p =>
    have hp := List.find?_some hf
    have hcond : p.1 = r := by simpa using hp
    simp [hcond]

/-- A key satisfying the search predicate somewhere makes `find?` succeed. -/
theorem find?_isSome_of_any {β : Type} (m : List (String × β)) (k : String)
    (h : m.any (fun p => p.1 == k) = true) :
    ∃ q, m.find? (fun p => p.1 == k) = some q := by
  induction m with
  | nil => simp at h
  | cons hd tl ih =>
    cases hb : (hd.1 == k) with
    | true => exact ⟨hd, by simp [List.find?, hb]⟩
    | false =>
      have h' : tl.any (fun p => p.1 == k) = true := by
        simpa [List.any_cons, hb] using h
      rcases ih h' with ⟨q, hq⟩
      exact ⟨q, by simp [List.find?, hb, hq]⟩

/-- Reads of a registry object extended on the right by a fresh entry. -/
theorem lookupReg_append_single (m : List (String × List String)) (r : String)
    (l0 : List String) (R : String) :
    lookupReg (m ++ [(r, l0)]) R =
      match lookupReg m R with
      | some w => some w
      | none => if R = r then some l0 else none := by
  induction m with
  | nil =>
    by_cases hk : R = r
    · have hb : (r == R) = true := by simp [hk]
      simp [lookupReg, List.find?, hb, hk]
    · have hb : (r == R) = false := beq_eq_false_iff_ne.mpr (fun hq => hk hq.symm)
      simp [lookupReg, List.find?, hb, hk]
  | cons hd tl ih =>
    cases hb : (hd.1 == R) with
    | true => simp [lookupReg, List.find?, hb]
    | false =>
      simp only [List.cons_append, lookupReg, List.find?, hb, cond_false] at *
      exact ih

/-- The successful push into `packagesByRegistry[r]` as seen through
reads-with-default: the pushed registry gains the package at the end,
every other registry is unchanged. -/
theorem lookupRegD_appendReg (m : List (String × List String)) (r pkg R : String) :
    lookupRegD (appendReg m r pkg) R =
      if R = r then lookupRegD m R ++ [pkg] else lookupRegD m R := by
  unfold appendReg
  by_cases ha : m.any (fun p => p.1 == r) = true
  · rw [if_pos ha]
    by_cases hR : R = r
    · subst hR
      unfold lookupRegD
      rw [lookupReg_map_self m R pkg]
      rcases find?_isSome_of_any m R ha with ⟨q, hq⟩
      have hl : lookupReg m R = some q.2 := by
        unfold lookupReg
        rw [hq]
        rfl
      rw [hl]
      simp
    · unfold lookupRegD
      rw [lookupReg_map_ne m r pkg R hR, if_neg hR]
  · have hfalse : m.any (fun p => p.1 == r) = false := by
      cases hq : m.any (fun p => p.1 == r) with
      | false => rfl
      | true => exact absurd hq ha
    rw [if_neg (by simp [hfalse])]
    unfold lookupRegD
    rw [lookupReg_append_single]
    by_cases hR : R = r
    · subst hR
      have hnone : lookupReg m R = none := by
        unfold lookupReg
        cases hq : m.find? (fun p => p.1 == R) with
        | none => rfl
        | some q =>
          have hp := List.find?_some hq
          have hp' : q.1 = R := by simpa using hp
          exfalso
          have : m.any (fun p => p.1 == R) = true :=
            List.any_eq_true.mpr ⟨q, List.mem_of_find?_eq_some hq, by simp [hp']⟩
          rw [this] at hfalse
          exact Bool.noConfusion hfalse
      rw [hnone]
      simp
    · cases hl : lookupReg m R <;> simp [hR, hl]

/-- The classification fold along the successful path, through
reads-with-default: the list of each registry is the source-ordered filter
of the package keys by the (amended) classification predicate. -/
theorem classify_fold_lookup (ks : List String) (registryMap : List (String × String))
    (defaultRegistry R : String) (acc : List (String × List String)) :
    lookupRegD (ks.foldl (classifyStepOk registryMap defaultRegistry) acc) R =
      lookupRegD acc R ++
        ks.filter (specClassified registryMap defaultRegistry R) := by
  induction ks generalizing acc with
  | nil => simp
  | cons pkg ks ih =>
    simp only [List.foldl_cons]
    rw [ih]
    rw [List.filter_cons]
    cases hs : scopeOf pkg with
    | none =>
      have hpred : specClassified registryMap defaultRegistry R pkg = false := by
        simp only [specClassified, hs]
      simp only [classifyStepOk, hs, hpred]
      simp
    | some scope =>
      cases hm : lookupMap registryMap scope with
      | none =>
        have hpred : specClassified registryMap defaultRegistry R pkg = false := by
          simp only [specClassified, hs, hm]
        simp only [classifyStepOk, hs, hm, hpred]
        simp
      | some registry =>
        cases hg : (!(registry == ("")) && !(registry == defaultRegistry)) with
        | false =>
          have hpred : specClassified registryMap defaultRegistry R pkg = false := by
            simp only [specClassified, hs, hm, hg, Bool.false_and]
          simp only [classifyStepOk, hs, hm, hg, hpred]
          simp
        | true =>
          simp only [classifyStepOk, hs, hm, hg, if_true]
          rw [lookupRegD_appendReg]
          by_cases hR : R = registry
          · subst hR
            have hpred : specClassified registryMap defaultRegistry R pkg = true := by
              simp only [specClassified, hs, hm, hg, Bool.true_and]
              simp
            simp only [hpred, if_pos rfl, if_true]
            simp
          · have hbr : (registry == R) = false :=
              beq_eq_false_iff_ne.mpr (fun hq => hR hq.symm)
            have hpred : specClassified registryMap defaultRegistry R pkg = false := by
              simp only [specClassified, hs, hm, hbr, Bool.and_false]
            simp only [hpred, if_neg hR]
            simp

/-- A push to a registry name outside the prototype members succeeds with
the pure write. -/
theorem pushReg_ok_of_not_proto (m : List (String × List String)) (r pkg : String)
    (h : protoProps.contains r = false) :
    pushReg m r pkg = Except.ok (appendReg m r pkg) := by
  unfold pushReg appendReg
  split
  · rfl
  · rw [h]
    rfl

/-- In the push case, safety is exactly the registry name avoiding the
prototype members. -/
theorem safeKey_push_case (registryMap : List (String × String))
    (defaultRegistry pkg scope registry : String)
    (hs : scopeOf pkg = some scope) (hm : lookupMap registryMap scope = some registry)
    (hg : (!(registry == ("")) && !(registry == defaultRegistry)) = true) :
    safeKey registryMap defaultRegistry pkg = !(protoProps.contains registry) := by
  unfold safeKey
  rw [hs]
  change (match lookupMap registryMap scope with
    | some registry =>
      if !(registry == ("")) && !(registry == defaultRegistry) then
        !(protoProps.contains registry)
      else true
    | none => true) = _
  rw [hm]
  change (if !(registry == ("")) && !(registry == defaultRegistry) then
    !(protoProps.contains registry) else true) = _
  rw [hg]
  rfl

/-- For a safe key, the loop step succeeds with the pure step. -/
theorem classifyStep_safe (registryMap : List (String × String))
    (defaultRegistry : String) (acc : List (String × List String)) (pkg : String)
    (h : safeKey registryMap defaultRegistry pkg = true) :
    classifyStep registryMap defaultRegistry acc pkg =
      Except.ok (classifyStepOk registryMap defaultRegistry acc pkg) := by
  unfold classifyStep classifyStepOk
  cases hs : scopeOf pkg with
  | none => rfl
  | some scope =>
    show (match lookupMap registryMap scope with
      | some registry =>
        if !(registry == ("")) && !(registry == defaultRegistry) then
          pushReg acc registry pkg
        else Except.ok acc
      | none => Except.ok acc) =
      Except.ok (match lookupMap registryMap scope with
      | some registry =>
        if !(registry == ("")) && !(registry == defaultRegistry) then
          appendReg acc registry pkg
        else acc
      | none => acc)
    cases hm : lookupMap registryMap scope with
    | none => rfl
    | some registry =>
      show (if !(registry == ("")) && !(registry == defaultRegistry) then
          pushReg acc registry pkg else Except.ok acc) =
        Except.ok (if !(registry == ("")) && !(registry == defaultRegistry) then
          appendReg acc registry pkg else acc)
      cases hg : (!(registry == ("")) && !(registry == defaultRegistry)) with
      | false => rfl
      | true =>
        have hsk := h
        rw [safeKey_push_case registryMap defaultRegistry pkg scope registry hs hm hg] at hsk
        have hcf : protoProps.contains registry = false := by
          cases hq : protoProps.contains registry with
          | false => rfl
          | true =>
            rw [hq] at hsk
            exact absurd hsk (by decide)
        exact pushReg_ok_of_not_proto acc registry pkg hcf

/-- Under safety of all keys, the loop computes the pure fold. -/
theorem classifyLoop_safe (registryMap : List (String × String))
    (defaultRegistry : String) (keys : List String)
    (acc : List (String × List String))
    (hsafe : safeKeys keys registryMap defaultRegistry = true) :
    classifyLoop registryMap defaultRegistry keys acc =
      Except.ok (keys.foldl (classifyStepOk registryMap defaultRegistry) acc) := by
  induction keys generalizing acc with
  | nil => rfl
  | cons pkg keys ih =>
    obtain ⟨hhead, htail⟩ : safeKey registryMap defaultRegistry pkg = true ∧
        safeKeys keys registryMap defaultRegistry = true := by
      have h2 := hsafe
      unfold safeKeys at h2
      rw [List.all_cons] at h2
      simp only [Bool.and_eq_true] at h2
      exact h2
    show (match classifyStep registryMap defaultRegistry acc pkg with
      | Except.ok acc2 => classifyLoop registryMap defaultRegistry keys acc2
      | Except.error e => Except.error e) =
      Except.ok ((pkg :: keys).foldl (classifyStepOk registryMap defaultRegistry) acc)
    rw [classifyStep_safe registryMap defaultRegistry acc pkg hhead, List.foldl_cons]
    exact ih (classifyStepOk registryMap defaultRegistry acc pkg) htail

/-- The pure write keeps all own keys outside the prototype members. -/
theorem appendReg_keys (m : List (String × List String)) (r pkg : String)
    (hm : ∀ p ∈ m, protoProps.contains p.1 = false)
    (hr : protoProps.contains r = false) :
    ∀ p ∈ appendReg m r pkg, protoProps.contains p.1 = false := by
  unfold appendReg
  split
  · intro p hp
    rcases List.mem_map.mp hp with ⟨q, hq, hqe⟩
    have hkey : ((if q.1 == r then (q.1, q.2 ++ [pkg]) else q).1) = q.1 := by
      split <;> rfl
    rw [← hqe, hkey]
    exact hm q hq
  · intro p hp
    rcases List.mem_append.mp hp with hp | hp
    · exact hm p hp
    · have hpe : p = (r, [pkg]) := by simpa using hp
      rw [hpe]
      exact hr

/-- The pure step keeps all own keys outside the prototype members. -/
theorem classifyStepOk_keys (registryMap : List (String × String))
    (defaultRegistry : String) (acc : List (String × List String)) (pkg : String)
    (hacc : ∀ p ∈ acc, protoProps.contains p.1 = false)
    (hsafe : safeKey registryMap defaultRegistry pkg = true) :
    ∀ p ∈ classifyStepOk registryMap defaultRegistry acc pkg,
      protoProps.contains p.1 = false := by
  unfold classifyStepOk
  cases hs : scopeOf pkg with
  | none => exact hacc
  | some scope =>
    show ∀ p ∈ (match lookupMap registryMap scope with
      | some registry =>
        if !(registry == ("")) && !(registry == defaultRegistry) then
          appendReg acc registry pkg
        else acc
      | none => acc), protoProps.contains p.1 = false
    cases hm : lookupMap registryMap scope with
    | none => exact hacc
    | some registry =>
      show ∀ p ∈ (if !(registry == ("")) && !(registry == defaultRegistry) then
        appendReg acc registry pkg else acc), protoProps.contains p.1 = false
      cases hg : (!(registry == ("")) && !(registry == defaultRegistry)) with
      | false => exact hacc
      | true =>
        have hsk := hsafe
        rw [safeKey_push_case registryMap defaultRegistry pkg scope registry hs hm hg] at hsk
        have hcf : protoProps.contains registry = false := by
          cases hq : protoProps.contains registry with
          | false => rfl
          | true =>
            rw [hq] at hsk
            exact absurd hsk (by decide)
        exact appendReg_keys acc registry pkg hacc hcf

/-- An unsafe key makes the loop step throw, provided no own key of the
accumulator names a prototype member (which is invariant). -/
theorem classifyStep_throws (registryMap : List (String × String))
    (defaultRegistry : String) (acc : List (String × List String)) (pkg : String)
    (hacc : ∀ p ∈ acc, protoProps.contains p.1 = false)
    (h : safeKey registryMap defaultRegistry pkg = false) :
    ∃ e, classifyStep registryMap defaultRegistry acc pkg = Except.error e := by
  have h2 := h
  unfold safeKey at h2
  unfold classifyStep
  cases hs : scopeOf pkg with
  | none =>
    exfalso
    rw [hs] at h2
    exact Bool.noConfusion h2
  | some scope =>
    rw [hs] at h2
    change (match lookupMap registryMap scope with
      | some registry =>
        if !(registry == ("")) && !(registry == defaultRegistry) then
          !(protoProps.contains registry)
        else true
      | none => true) = false at h2
    show ∃ e, (match lookupMap registryMap scope with
      | some registry =>
        if !(registry == ("")) && !(registry == defaultRegistry) then
          pushReg acc registry pkg
        else Except.ok acc
      | none => Except.ok acc) = Except.error e
    cases hm : lookupMap registryMap scope with
    | none =>
      exfalso
      rw [hm] at h2
      exact Bool.noConfusion h2
    | some registry =>
      rw [hm] at h2
      change (if !(registry == ("")) && !(registry == defaultRegistry) then
        !(protoProps.contains registry) else true) = false at h2
      show ∃ e, (if !(registry == ("")) && !(registry == defaultRegistry) then
        pushReg acc registry pkg else Except.ok acc) = Except.error e
      cases hg : (!(registry == ("")) && !(registry == defaultRegistry)) with
      | false =>
        exfalso
        rw [hg] at h2
        exact Bool.noConfusion h2
      | true =>
        rw [hg] at h2
        change ((!(protoProps.contains registry)) = false) at h2
        have hcp : protoProps.contains registry = true := by
          cases hq : protoProps.contains registry with
          | true => rfl
          | false =>
            rw [hq] at h2
            exact absurd h2 (by decide)
        have hany : acc.any (fun p => p.1 == registry) = false := by
          cases hq : acc.any (fun p => p.1 == registry) with
          | false => rfl
          | true =>
            exfalso
            rcases List.any_eq_true.mp hq with ⟨p, hp, hpp⟩
            have h1 : p.1 = registry := by simpa using hpp
            have h3 := hacc p hp
            rw [h1] at h3
            rw [h3] at hcp
            exact Bool.noConfusion hcp
        refine ⟨("packagesByRegistry[registry].push is not a function"), ?_⟩
        show pushReg acc registry pkg = Except.error
          ("packagesByRegistry[registry].push is not a function")
        unfold pushReg
        rw [hany, hcp]
        rfl

/-- With an unsafe key somewhere, the loop throws. -/
theorem classifyLoop_error (registryMap : List (String × String))
    (defaultRegistry : String) (keys : List String)
    (acc : List (String × List String))
    (hacc : ∀ p ∈ acc, protoProps.contains p.1 = false)
    (hbad : safeKeys keys registryMap defaultRegistry = false) :
    ∃ e, classifyLoop registryMap defaultRegistry keys acc = Except.error e := by
  induction keys generalizing acc with
  | nil => exfalso; simp [safeKeys] at hbad
  | cons pkg keys ih =>
    cases hq : safeKey registryMap defaultRegistry pkg with
    | false =>
      rcases classifyStep_throws registryMap defaultRegistry acc pkg hacc hq with ⟨e, he⟩
      refine ⟨e, ?_⟩
      show (match classifyStep registryMap defaultRegistry acc pkg with
        | Except.ok acc2 => classifyLoop registryMap defaultRegistry keys acc2
        | Except.error e => Except.error e) = Except.error e
      rw [he]
    | true =>
      have htail : safeKeys keys registryMap defaultRegistry = false := by
        have h2 := hbad
        unfold safeKeys at h2
        rw [List.all_cons, hq, Bool.true_and] at h2
        exact h2
      rcases ih (classifyStepOk registryMap defaultRegistry acc pkg)
          (classifyStepOk_keys registryMap defaultRegistry acc pkg hacc hq) htail with ⟨e, he⟩
      refine ⟨e, ?_⟩
      show (match classifyStep registryMap defaultRegistry acc pkg with
        | Except.ok acc2 => classifyLoop registryMap defaultRegistry keys acc2
        | Except.error e => Except.error e) = Except.error e
      rw [classifyStep_safe registryMap defaultRegistry acc pkg hq]
      exact he

/-- Classification succeeds exactly on safe key lists. -/
theorem classifyPackages_ok_iff (keys : List String)
    (registryMap : List (String × String)) (defaultRegistry : String) :
    (∃ res, classifyPackages keys registryMap defaultRegistry = Except.ok res) ↔
      safeKeys keys registryMap defaultRegistry = true := by
  constructor
  · rintro ⟨res, hres⟩
    cases hq : safeKeys keys registryMap defaultRegistry with
    | true => rfl
    | false =>
      exfalso
      rcases classifyLoop_error registryMap defaultRegistry keys []
          (fun p hp => absurd hp (List.not_mem_nil p)) hq with ⟨e, he⟩
      unfold classifyPackages at hres
      rw [he] at hres
      exact Except.noConfusion hres
  · intro h
    exact ⟨_, classifyLoop_safe registryMap defaultRegistry keys [] h⟩

/-- Classification throws exactly on unsafe key lists. -/
theorem classifyPackages_error_iff (keys : List String)
    (registryMap : List (String × String)) (defaultRegistry : String) :
    (∃ e, classifyPackages keys registryMap defaultRegistry = Except.error e) ↔
      safeKeys keys registryMap defaultRegistry = false := by
  constructor
  · rintro ⟨e, he⟩
    cases hq : safeKeys keys registryMap defaultRegistry with
    | false => rfl
    | true =>
      exfalso
      unfold classifyPackages at he
      rw [classifyLoop_safe registryMap defaultRegistry keys [] hq] at he
      exact Except.noConfusion he
  · intro h
    exact classifyLoop_error registryMap defaultRegistry keys []
      (fun p hp => absurd hp (List.not_mem_nil p)) h

/-- Claim C2 (amended): on a parsed lockfile whose classification avoids
the inherited-property `TypeError` (no classified registry value names an
`Object.prototype` member — otherwise the source throws, see
`lockfile_error_inherited_cex`), for every registry URL `R`, the list
`extractPackagesByRegistry` stores under `R` (empty when `R` is absent)
is exactly the source-ordered filter of the package keys by: has a scope,
the mapping sends that scope to a NON-EMPTY registry string equal to `R`,
and that string differs from the default registry.  (The original claim
also omitted the non-emptiness condition; see
`extractPackages_empty_registry_cex`.) -/
theorem extractPackagesByRegistry_filter (yamlLoad : String → Except String Yaml)
    (fs : FileSys) (lockPath c : String) (registryMap : List (String × String))
    (defaultRegistry : String) (doc : Yaml)
    (hc : fs.readFile? lockPath = some c)
    (hy : yamlLoad c = Except.ok doc)
    (hsafe : safeKeys (packageKeys doc) registryMap defaultRegistry = true)
    (R : String) :
    ∃ res, extractPackagesByRegistry yamlLoad fs lockPath registryMap defaultRegistry =
        Except.ok res ∧
      lookupRegD res R =
        (packageKeys doc).filter (specClassified registryMap defaultRegistry R) := by
  refine ⟨(packageKeys doc).foldl (classifyStepOk registryMap defaultRegistry) [], ?_, ?_⟩
  · unfold extractPackagesByRegistry
    simp only [hc, hy]
    rw [show classifyPackages (packageKeys doc) registryMap defaultRegistry =
        Except.ok ((packageKeys doc).foldl (classifyStepOk registryMap defaultRegistry) [])
      from classifyLoop_safe registryMap defaultRegistry (packageKeys doc) [] hsafe]
  · simpa using classify_fold_lookup (packageKeys doc) registryMap defaultRegistry R []

/-! Concrete inputs used by counterexamples and witnesses. -/

/-- File system holding one config file whose scoped declaration carries a
slash inside the scope name. -/
def fsC9 : FileSys := FileSys.mk [(("cfg"), ("@foo/bar:registry = https://x/"))]

/-- Lockfile document with a single scoped package under `packages`. -/
def docC2 : Yaml :=
  Yaml.mapping [(("packages"), Yaml.mapping [(("@foo/bar"), Yaml.nullv)])]

/-- File system holding one lockfile. -/
def fsLock : FileSys := FileSys.mk [(("/lock"), ("content"))]

/-- Parser stub that returns `docC2` for any content. -/
def yamlC2 : String → Except String Yaml := fun _ => Except.ok docC2

/-- File system holding both candidate `.npmrc` files. -/
def fsC6 : FileSys := FileSys.mk [(("/proj/.npmrc"), ("a")), (("/home/u/.npmrc"), ("b"))]

/-- Claim C4 (amended): for every path, both functions fail with
`LockfileNotFound` exactly when the path does not exist; `extractScopes`
fails with `LockfileParseError` exactly when the file exists but its
content cannot be parsed, and succeeds exactly when the content parses;
`extractPackagesByRegistry` fails with `LockfileParseError` exactly when
the file exists and EITHER its content cannot be parsed OR the content
parses but some classified registry value names an `Object.prototype`
member (the inherited-property `TypeError` is rethrown by the same catch
as a parse failure), and succeeds exactly when the file exists, the
content parses, and every classified registry write is safe. -/
theorem lockfile_error_taxonomy (yamlLoad : String → Except String Yaml) (fs : FileSys)
    (lockPath : String) (registryMap : List (String × String)) (defaultRegistry : String) :
    ((∃ q, extractScopes yamlLoad fs lockPath = Except.error (LockError.lockfileNotFound q)) ↔
       fs.existsSync lockPath = false) ∧
    ((∃ msg, extractScopes yamlLoad fs lockPath =
         Except.error (LockError.lockfileParseError msg)) ↔
       (∃ c e, fs.readFile? lockPath = some c ∧ yamlLoad c = Except.error e)) ∧
    ((∃ r, extractScopes yamlLoad fs lockPath = Except.ok r) ↔
       (∃ c doc, fs.readFile? lockPath = some c ∧ yamlLoad c = Except.ok doc)) ∧
    ((∃ q, extractPackagesByRegistry yamlLoad fs lockPath registryMap defaultRegistry =
         Except.error (LockError.lockfileNotFound q)) ↔ fs.existsSync lockPath = false) ∧
    ((∃ msg, extractPackagesByRegistry yamlLoad fs lockPath registryMap defaultRegistry =
         Except.error (LockError.lockfileParseError msg)) ↔
       (∃ c, fs.readFile? lockPath = some c ∧
         ((∃ e, yamlLoad c = Except.error e) ∨
          (∃ doc, yamlLoad c = Except.ok doc ∧
            safeKeys (packageKeys doc) registryMap defaultRegistry = false)))) ∧
    ((∃ r, extractPackagesByRegistry yamlLoad fs lockPath registryMap defaultRegistry =
         Except.ok r) ↔
       (∃ c doc, fs.readFile? lockPath = some c ∧ yamlLoad c = Except.ok doc ∧
         safeKeys (packageKeys doc) registryMap defaultRegistry = true)) := by
  unfold extractScopes extractPackagesByRegistry FileSys.existsSync
  cases hr : fs.readFile? lockPath with
  | none => simp
  | some c =>
    cases hy : yamlLoad c with
    | error e => simp [hy]
    | ok doc =>
      cases hcl : classifyPackages (packageKeys doc) registryMap defaultRegistry with
      | ok res =>
        have hsafe : safeKeys (packageKeys doc) registryMap defaultRegistry = true :=
          (classifyPackages_ok_iff (packageKeys doc) registryMap defaultRegistry).mp
            ⟨res, hcl⟩
        simp [hy, hcl, hsafe]
      | error e =>
        have hbad : safeKeys (packageKeys doc) registryMap defaultRegistry = false :=
          (classifyPackages_error_iff (packageKeys doc) registryMap defaultRegistry).mp
            ⟨e, hcl⟩
        simp [hy, hcl, hbad]

/-- Claim C4 counterexample: with scope `@foo` mapped to `constructor` (a
value reachable from a config layer), the lockfile exists and its content
parses, yet `extractPackagesByRegistry` raises the parse-error wrap: the
push into `packagesByRegistry` reads the inherited
`Object.prototype.constructor`, skips creating the array, and the `.push`
throws a `TypeError` caught by the same catch clause.  This refutes both
"LockfileParseError exactly when the content cannot be parsed" and "on
success neither error is raised" for `extractPackagesByRegistry`. -/
theorem lockfile_error_inherited_cex :
    fsLock.readFile? ("/lock") = some ("content") ∧
    yamlC2 ("content") = Except.ok docC2 ∧
    extractPackagesByRegistry yamlC2 fsLock ("/lock") [(("@foo"), ("constructor"))]
        ("https://registry.npmjs.org/") =
      Except.error (LockError.lockfileParseError
        ("packagesByRegistry[registry].push is not a function")) := by
  refine ⟨rfl, rfl, rfl⟩

/-- Claim C6 (amended): when a lockfile path is given, `findNpmrcFiles`
returns the existing candidates with the PROJECT-level path (the sibling of
the lockfile) first and the user-level path after it; non-existent
candidates are silently omitted.  (The user-level-first application order
claimed by the spec is established later, by `parseNpmrc` reversing this
sequence.) -/
theorem findNpmrcFiles_order (fs : FileSys) (homedir lp : String) :
    (fs.existsSync (pathJoin (dirname lp) (".npmrc")) = true →
     fs.existsSync (pathJoin homedir (".npmrc")) = true →
     findNpmrcFiles fs homedir (some lp) =
       [pathJoin (dirname lp) (".npmrc"), pathJoin homedir (".npmrc")]) ∧
    (fs.existsSync (pathJoin (dirname lp) (".npmrc")) = false →
     fs.existsSync (pathJoin homedir (".npmrc")) = true →
     findNpmrcFiles fs homedir (some lp) = [pathJoin homedir (".npmrc")]) ∧
    (fs.existsSync (pathJoin (dirname lp) (".npmrc")) = true →
     fs.existsSync (pathJoin homedir (".npmrc")) = false →
     findNpmrcFiles fs homedir (some lp) = [pathJoin (dirname lp) (".npmrc")]) ∧
    (fs.existsSync (pathJoin (dirname lp) (".npmrc")) = false →
     fs.existsSync (pathJoin homedir (".npmrc")) = false →
     findNpmrcFiles fs homedir (some lp) = []) := by
  refine ⟨?_, ?_, ?_, ?_⟩ <;> intro h1 h2 <;>
    simp [findNpmrcFiles, List.filter, h1, h2]

/-- Witness for `findNpmrcFiles_order` at a concrete file system in which
both candidates exist. -/
theorem findNpmrcFiles_order_witness :
    findNpmrcFiles fsC6 ("/home/u") (some ("/proj/pnpm-lock.yaml")) =
      [pathJoin (dirname ("/proj/pnpm-lock.yaml")) (".npmrc"),
       pathJoin ("/home/u") (".npmrc")] :=
  (findNpmrcFiles_order fsC6 ("/home/u") ("/proj/pnpm-lock.yaml")).1 (by decide) (by decide)

/-- Claim C6 counterexample: with both candidate files existing, the
project-level path comes FIRST in the returned sequence, not after the
user-level path as the claim states. -/
theorem findNpmrcFiles_project_first_cex :
    fsC6.existsSync ("/proj/.npmrc") = true ∧
    fsC6.existsSync ("/home/u/.npmrc") = true ∧
    pathJoin (dirname ("/proj/pnpm-lock.yaml")) (".npmrc") = ("/proj/.npmrc") ∧
    pathJoin ("/home/u") (".npmrc") = ("/home/u/.npmrc") ∧
    findNpmrcFiles fsC6 ("/home/u") (some ("/proj/pnpm-lock.yaml")) =
      [("/proj/.npmrc"), ("/home/u/.npmrc")] ∧
    findNpmrcFiles fsC6 ("/home/u") (some ("/proj/pnpm-lock.yaml")) ≠
      [("/home/u/.npmrc"), ("/proj/.npmrc")] := by
  refine ⟨rfl, rfl, rfl, rfl, rfl, by decide⟩

/-- Claim C7 (code bug): `parseNpmrc` does NOT leave its input sequence
unchanged.  The source iterates over `filePaths.reverse()`, and
`Array.prototype.reverse` reverses the array of the caller in place, so after
the call the input sequence is reversed. -/
theorem parseNpmrc_reverses_input :
    (parseNpmrc (FileSys.mk []) [("/proj/.npmrc"), ("/home/user/.npmrc")]).1 =
      [("/home/user/.npmrc"), ("/proj/.npmrc")] ∧
    [("/home/user/.npmrc"), ("/proj/.npmrc")] ≠ [("/proj/.npmrc"), ("/home/user/.npmrc")] := by
  exact ⟨rfl, by decide⟩

/-- Claim C9 counterexample: the scoped-line regex class `[^:]+` accepts
slashes, so a config line `@foo/bar:registry = https://x/` produces a
`RegistryMapping` key containing a `/`, refuting the claim that no key
contains a slash. -/
theorem registryMap_key_with_slash_cex :
    (parseNpmrc fsC9 [("cfg")]).2.registryMap = [(("@foo/bar"), ("https://x/"))] ∧
    ('/' ∈ ("@foo/bar").toList) := by
  exact ⟨rfl, by decide⟩

/-- Claim C2 counterexample: with `@foo` mapped to the empty string, the
empty string differs from the default registry by exact string inequality
and the lockfile contains the scoped package `@foo/bar`, yet the result is
empty — the truthiness guard of the source `registry && …` drops the empty
string, so the claimed iff fails. -/
theorem extractPackages_empty_registry_cex :
    extractPackagesByRegistry yamlC2 fsLock ("/lock") [(("@foo"), (""))]
        ("https://registry.npmjs.org/") = Except.ok [] ∧
    scopeOf ("@foo/bar") = some ("@foo") ∧
    lookupMap [(("@foo"), (""))] ("@foo") = some ("") ∧
    ("" : String) ≠ ("https://registry.npmjs.org/") ∧
    packageKeys docC2 = [("@foo/bar")] := by
  refine ⟨rfl, rfl, rfl, by decide, rfl⟩

/-- Packages mapping of the worked example of the spec. -/
def pkgsC3 : List (String × Yaml) :=
  [(("@foo/bar"), Yaml.nullv), (("baz"), Yaml.nullv), (("@foo/qux"), Yaml.nullv)]

/-- Lockfile document of the worked example of the spec. -/
def docC3 : Yaml := Yaml.mapping [(("packages"), Yaml.mapping pkgsC3)]

/-- Parser stub returning the worked-example document. -/
def yamlC3 : String → Except String Yaml := fun _ => Except.ok docC3

/-- Parser stub returning a document whose `packages` value is a list of
strings. -/
def yamlListW : String → Except String Yaml := fun _ =>
  Except.ok (Yaml.mapping [(("packages"), Yaml.listv [Yaml.strv ("a"), Yaml.strv ("b")])])

/-- Witness for `parseNpmrc_merge_precedence`: the project layer and the
user layer both declare `@a`; the merged map holds the project value. -/
theorem parseNpmrc_merge_precedence_witness :
    lookupMap ((parseNpmrc (FileSys.mk [(("/p/.npmrc"), ("@a:registry = p")),
        (("/h/.npmrc"), ("@a:registry = u"))]) [("/p/.npmrc"), ("/h/.npmrc")]).2).registryMap
      ("@a") = lastScopedVal ("@a:registry = p") ("@a") :=
  (parseNpmrc_merge_precedence ("/p/.npmrc") ("@a:registry = p") ("/h/.npmrc")
    ("@a:registry = u") ("@a") (by decide)).1 (by decide)

/-- Witness for `extractScopes_scope_shape` at the scope `@foo` extracted
from a concrete lockfile. -/
theorem extractScopes_scope_shape_witness :
    (("@foo").toList.head? = some '@' ∧ 2 ≤ ("@foo").length ∧ ¬ ('/' ∈ ("@foo").toList)) ∧
      (∀ regKey : String, '/' ∈ regKey.toList → ¬ regKey = ("@foo")) :=
  extractScopes_scope_shape yamlC3 fsLock ("/lock") [("@foo")] rfl ("@foo") (by decide)

/-- Witness for `extractScopes_foo_example` on the concrete worked-example
lockfile. -/
theorem extractScopes_foo_example_witness :
    extractScopes yamlC3 fsLock ("/lock") = Except.ok [("@foo")] :=
  extractScopes_foo_example yamlC3 fsLock ("/lock") ("content")
    [(("packages"), Yaml.mapping pkgsC3)] pkgsC3 rfl rfl rfl (by decide)

/-- Witness for `nonmapping_packages_graceful` with `packages` a list of
strings. -/
theorem nonmapping_packages_graceful_witness :
    extractScopes yamlListW fsLock ("/lock") = Except.ok [] ∧
    extractPackagesByRegistry yamlListW fsLock ("/lock") [] ("d") = Except.ok [] :=
  nonmapping_packages_graceful yamlListW fsLock ("/lock") [] ("d") ("content")
    [(("packages"), Yaml.listv [Yaml.strv ("a"), Yaml.strv ("b")])]
    (Yaml.listv [Yaml.strv ("a"), Yaml.strv ("b")]) rfl rfl rfl rfl

/-- Witness for `extractPackagesByRegistry_filter` reproducing the worked
example of the spec: both `@foo` packages, in source order, under the custom
registry. -/
theorem extractPackagesByRegistry_filter_witness :
    ∃ res, extractPackagesByRegistry yamlC3 fsLock ("/lock")
        [(("@foo"), ("https://custom.example/"))] ("https://registry.npmjs.org/") =
        Except.ok res ∧
      lookupRegD res ("https://custom.example/") = [("@foo/bar"), ("@foo/qux")] := by
  have h := extractPackagesByRegistry_filter yamlC3 fsLock ("/lock") ("content")
    [(("@foo"), ("https://custom.example/"))] ("https://registry.npmjs.org/") docC3
    rfl rfl rfl ("https://custom.example/")
  rw [show (packageKeys docC3).filter
      (specClassified [(("@foo"), ("https://custom.example/"))]
        ("https://registry.npmjs.org/") ("https://custom.example/")) =
      [("@foo/bar"), ("@foo/qux")] from rfl] at h
  exact h

end PnpmRegistrySummary
